import Mathlib

/-!
Verification of the epoch-segmentation and per-epoch statistics pipeline of
`neurphys/oscillation.py` (`_create_epoch`, `_epoch_data`, `epoch_hist`,
`epoch_kde`, `epoch_pgram`).

Conventions of the shallow embedding:
* a pandas multi-indexed DataFrame of sweeps is a `TrialSeries`: an ordered
  list of named trials (sweeps), each an ordered list of sample rows, the
  rows parallel to a fixed column list;
* machine integers are `Int`/`Nat`; Python float arithmetic on integral data
  is idealised as exact rational arithmetic (`Rat`), with `int()` conversion
  as truncation toward zero (Lean `Int.tdiv` on the exact quotient);
* Python exceptions are an explicit `Err` value in `Except`;
* the transcendental kernels (the Gaussian KDE density and the FFT power
  values of `scipy.signal.periodogram`) are parameters of the embedding:
  every claim under study concerns lengths, axes, ordering and error paths,
  none concerns those floating-point values themselves.
-/

deriving instance DecidableEq for Except

/-- Python exceptions raised by the pipeline. -/
inductive Err where
  | zeroDivision
  | valueError
  | missingChannel
  | lengthMismatch
  | concatEmpty
  | estimationError
deriving DecidableEq, Repr

/-- A multi-sweep tabular time series: the model of the pandas DataFrame
produced by `read_abf`/`read_pv` (sweep-major MultiIndex).  Each trial is a
sweep name with its ordered sample rows; each row lists the numeric channel
values parallel to `cols`. -/
structure TrialSeries where
  cols : List String
  trials : List (String × List (List ℚ))
deriving DecidableEq, Repr

/-- Rows per trial: `df.index.levshape[1]`.  Under the module's stated
assumption (source comment line 43: all sweeps have exactly the same
length) this is the row count of the first sweep. -/
def numRows (s : TrialSeries) : ℕ :=
  match s.trials with
  | [] => 0
  | t :: _ => t.2.length

/-- Sweep names in series order: `df.index.levels[0].values`. -/
def trialNames (s : TrialSeries) : List String :=
  s.trials.map Prod.fst

/-- The epoch count `int(1 + (num_rows - window) / step)` of `_create_epoch`
(source line 45): exact true division followed by `int()` truncation toward
zero, i.e. the T-division `Int.tdiv (step + rows - window) step`. -/
def numEpochsInt (rows w st : ℤ) : ℤ :=
  Int.tdiv (st + rows - w) st

/-- The epoch count in `ℕ`, for the regime `window ≤ rows`, `step ≥ 1`. -/
def numEpochsNat (rows w st : ℕ) : ℕ :=
  (st + rows - w) / st

/-- Python positional slice `xs[a:b]` with full negative-index semantics. -/
def pySliceInt {α : Type} (xs : List α) (a b : ℤ) : List α :=
  let n : ℤ := xs.length
  let lo : ℤ := if a < 0 then max (n + a) 0 else min a n
  let hi : ℤ := if b < 0 then max (n + b) 0 else min b n
  (xs.take hi.toNat).drop lo.toNat

/-- `_create_epoch(df, window, step)` (source lines 42-58), with the
generator fully elaborated: trial-major, epoch-minor slices
`sweep_df[step*epoch : window + step*epoch]`.  Raises `ZeroDivisionError`
for `step == 0` (from the epoch-count division) and `ValueError` when the
computed epoch count exceeds 1000 (source line 46: `if num_epochs > 1000`). -/
def createEpoch (s : TrialSeries) (w st : ℤ) : Except Err (List (List (List ℚ))) :=
  if st = 0 then Except.error Err.zeroDivision
  else
    let nE := numEpochsInt (numRows s) w st
    if 1000 < nE then Except.error Err.valueError
    else Except.ok (s.trials.flatMap (fun tr =>
      (List.range nE.toNat).map (fun i : ℕ =>
        pySliceInt tr.2 (st * (i : ℤ)) (w + st * (i : ℤ)))))

/-- Python `str.zfill`: left-pad with zeros to the given width. -/
def zfill (str : String) (wdt : ℕ) : String :=
  if wdt ≤ str.length then str
  else String.mk (List.replicate (wdt - str.length) ('0')) ++ str

/-- The epoch names of `_epoch_data` (source lines 88-89):
`'epoch' + str(i+1).zfill(3)`. -/
def epochNames (nE : ℕ) : List String :=
  (List.range nE).map (fun i => "epoch" ++ zfill (Nat.repr (i + 1)) 3)

/-- Column selection `epoch[channel]` on a block of sample rows: `KeyError`
(missing channel) when the name is not a column. -/
def getChannel (cols : List String) (rows : List (List ℚ)) (ch : String) :
    Except Err (List ℚ) :=
  match cols.findIdx? (fun c => c = ch) with
  | none => Except.error Err.missingChannel
  | some i => Except.ok (rows.map (fun r => r.getD i 0))

/-- Sequential per-epoch loop: first raised exception aborts the run. -/
def mapExcept {α β : Type} (f : α → Except Err β) : List α → Except Err (List β)
  | [] => Except.ok []
  | x :: xs =>
    match f x with
    | Except.error e => Except.error e
    | Except.ok y =>
      match mapExcept f xs with
      | Except.error e => Except.error e
      | Except.ok ys => Except.ok (y :: ys)

/-- `pd.MultiIndex.from_product([sweep_names, epoch_names, idx])`
(ordered cartesian product, last axis fastest). -/
def prod3 (as bs : List String) (cs : List ℕ) : List (String × String × ℕ) :=
  as.flatMap (fun a => bs.flatMap (fun b => cs.map (fun c => (a, b, c))))

/-- Shared shape of `epoch_hist` / `epoch_kde` / `epoch_pgram` (source lines
128-156, 199-232, 267-295): iterate `_create_epoch`, select the channel of
each epoch and apply the per-epoch statistic (each epoch contributing
index-axis/value pairs), `np.concatenate` the per-epoch arrays (`ValueError`
when there is no array at all), then `set_index` with the rebuilt
`MultiIndex` — pandas raises `ValueError` when the index length does not
match the data length. -/
def epochStatRun (stat : List ℚ → Except Err (List (ℚ × ℚ))) (idxLen : ℕ)
    (s : TrialSeries) (w st : ℤ) (ch : String) :
    Except Err (List ((String × String × ℕ) × (ℚ × ℚ))) :=
  Except.bind (createEpoch s w st) (fun slices =>
    Except.bind (mapExcept (fun sl =>
        Except.bind (getChannel s.cols sl ch) stat) slices) (fun results =>
      if results.length = 0 then Except.error Err.concatEmpty
      else
        let data := results.flatten
        let index := prod3 (trialNames s)
          (epochNames (numEpochsInt (numRows s) w st).toNat) (List.range idxLen)
        if index.length = data.length then Except.ok (index.zip data)
        else Except.error Err.lengthMismatch))

/-- Bin edge `i` of `np.histogram(·, bins=n, range=(lo, hi))`: the uniform
grid `lo + i*(hi-lo)/n`. -/
def histEdge (lo hi : ℚ) (n : ℕ) (i : ℕ) : ℚ :=
  lo + i * (hi - lo) / n

/-- The full `n+1` bin edges returned by `np.histogram`. -/
def binsFull (lo hi : ℚ) (n : ℕ) : List ℚ :=
  (List.range (n + 1)).map (histEdge lo hi n)

/-- The bin receiving sample `x` under `np.histogram(·, bins=n,
range=(lo, hi))`: samples outside `[lo, hi]` fall in no bin; inside, bin
`⌊(x-lo)·n/(hi-lo)⌋`, with the right edge of the last bin inclusive. -/
def histBin (lo hi : ℚ) (n : ℕ) (x : ℚ) : Option ℕ :=
  if x < lo ∨ hi < x then none
  else some (min (Int.toNat ⌊(x - lo) * n / (hi - lo)⌋) (n - 1))

/-- Count of samples of `xs` landing in bin `i`. -/
def histCount (lo hi : ℚ) (n : ℕ) (xs : List ℚ) (i : ℕ) : ℕ :=
  xs.countP (fun x => decide (histBin lo hi n x = some i))

/-- The per-epoch histogram statistic (source lines 140-143):
`hist, bins = np.histogram(epoch[channel], bins=num_bins,
range=(hist_min, hist_max))`, keeping `bins[:-1]` (the left edges) zipped
with the counts. -/
def histStat (lo hi : ℚ) (n : ℕ) (xs : List ℚ) : List (ℚ × ℚ) :=
  (binsFull lo hi n).dropLast.zip
    ((List.range n).map (fun i => (histCount lo hi n xs i : ℚ)))

/-- `epoch_hist(df, window, step, channel, hist_min, hist_max, num_bins)`
(source lines 93-156). -/
def epochHist (s : TrialSeries) (w st : ℤ) (ch : String) (lo hi : ℚ) (n : ℕ) :
    Except Err (List ((String × String × ℕ) × (ℚ × ℚ))) :=
  epochStatRun (fun vals => Except.ok (histStat lo hi n vals)) n s w st ch

/-- Truncation toward zero of a rational: Python `int(q)`. -/
def truncQ (q : ℚ) : ℤ :=
  Int.tdiv q.num q.den

/-- Length of `np.arange(q)` for a (possibly non-integral) scalar `q`:
`ceil q` clamped at zero. -/
def arangeLen (q : ℚ) : ℕ :=
  (Int.toNat ⌈q⌉)

/-- `np.linspace(lo, hi, n)`: `n` evenly spaced points from `lo` to `hi`
inclusive (a single point is `lo`). -/
def linspace (lo hi : ℚ) (n : ℕ) : List ℚ :=
  if n ≤ 1 then (List.range n).map (fun _ => lo)
  else (List.range n).map (fun i : ℕ => lo + (i : ℚ) * (hi - lo) / ((n : ℚ) - 1))

/-- The per-epoch KDE statistic (source lines 211-220):
`kde = gaussian_kde(epoch[channel]); kde(x)` on the grid
`x = np.linspace(range_min, range_max, resolution)`.  `gaussian_kde` fails
on an empty epoch and on a degenerate (constant-valued) epoch; the density
values themselves are the transcendental kernel `g`. -/
def kdeStat (g : List ℚ → ℚ → ℚ) (lo hi res : ℚ) :
    List ℚ → Except Err (List (ℚ × ℚ))
  | [] => Except.error Err.valueError
  | x :: rest =>
    if rest.all (fun y => y = x) then Except.error Err.estimationError
    else Except.ok ((linspace lo hi (truncQ res).toNat).map
      (fun t => (t, g (x :: rest) t)))

/-- The resolution used by `epoch_kde` (source lines 202-205): the supplied
one, or `abs(range_min - range_max) * 5` by default. -/
def resolveRes (lo hi : ℚ) (res : Option ℚ) : ℚ :=
  res.getD (|lo - hi| * 5)

/-- `epoch_kde(df, window, step, channel, range_min, range_max, resolution)`
(source lines 159-232), `g` the abstract Gaussian-KDE density. -/
def epochKde (g : List ℚ → ℚ → ℚ) (s : TrialSeries) (w st : ℤ) (ch : String)
    (lo hi : ℚ) (res : Option ℚ) :
    Except Err (List ((String × String × ℕ) × (ℚ × ℚ))) :=
  epochStatRun (kdeStat g lo hi (resolveRes lo hi res))
    (arangeLen (resolveRes lo hi res)) s w st ch

/-- The one-sided frequency grid of `scipy.signal.periodogram` on `n` real
samples at rate `fs`: `k * fs / n` for `k = 0 .. n/2`. -/
def pgramFreqs (fs : ℤ) (n : ℕ) : List ℚ :=
  (List.range (n / 2 + 1)).map (fun k : ℕ => (k : ℚ) * (fs : ℚ) / (n : ℚ))

/-- The per-epoch periodogram statistic (source line 281):
`f, den = periodogram(epoch[channel], fs)`; the two arrays have length
`n/2 + 1`, `den` given by the abstract spectral kernel `g`. -/
def pgramStat (g : List ℚ → ℕ → ℚ) (fs : ℤ) (xs : List ℚ) :
    Except Err (List (ℚ × ℚ)) :=
  if xs.length = 0 then Except.error Err.valueError
  else Except.ok ((pgramFreqs fs xs.length).zip
    ((List.range (xs.length / 2 + 1)).map (g xs)))

/-- The length of the index axis `np.arange((window/2)+1)` built by
`epoch_pgram` (source line 276): note `window/2` is Python 3 true division,
so the arange stop is the rational `window/2 + 1`. -/
def pgramIdxLen (w : ℤ) : ℕ :=
  arangeLen ((w : ℚ) / 2 + 1)

/-- `epoch_pgram(df, window, step, channel, fs)` (source lines 235-295),
with `fs = int(fs)` already applied. -/
def epochPgram (g : List ℚ → ℕ → ℚ) (s : TrialSeries) (w st : ℤ) (ch : String)
    (fs : ℤ) : Except Err (List ((String × String × ℕ) × (ℚ × ℚ))) :=
  epochStatRun (pgramStat g fs) (pgramIdxLen w) s w st ch

/-- The data of one channel of a series, trial by trial (`none` when the
channel is absent): the part of the input the statistics pipeline reads. -/
def chanCol (s : TrialSeries) (ch : String) : Option (List (List ℚ)) :=
  match s.cols.findIdx? (fun c => c = ch) with
  | none => none
  | some i => some (s.trials.map (fun t => t.2.map (fun r => r.getD i 0)))

/-- A concrete two-sweep, six-row, one-channel series used as a witness
input. -/
def demoSeries : TrialSeries :=
  ⟨["v"], [("s1", [[0], [1], [2], [3], [4], [5]]),
           ("s2", [[6], [7], [8], [9], [10], [11]])]⟩

/-- A variant of `demoSeries` with an extra time channel but identical
values on channel v: used to witness that the pipeline reads nothing but
the selected channel. -/
def demoSeriesB : TrialSeries :=
  ⟨["v", "t"], [("s1", [[0, 100], [1, 100], [2, 100], [3, 100], [4, 100], [5, 100]]),
                ("s2", [[6, 100], [7, 100], [8, 100], [9, 100], [10, 100], [11, 100]])]⟩

/-- A concrete one-sweep, twenty-row, one-channel series used as a witness
input. -/
def demoSeries20 : TrialSeries :=
  ⟨["v"], [("sweep001", List.replicate 20 [0])]⟩

/-- A concrete one-sweep series of five rows. -/
def shortSeries : TrialSeries :=
  ⟨["v"], [("sweep001", List.replicate 5 [0])]⟩

/-! ## General helper lemmas -/

/-- Truncating division of a nonnegative integer by a natural number is the
floor of the exact rational quotient. -/
theorem tdiv_natCast_eq_floor (p : ℤ) (q : ℕ) (hp : 0 ≤ p) :
    Int.tdiv p (q : ℤ) = ⌊(p : ℚ) / (q : ℚ)⌋ := by
  rw [Rat.floor_intCast_div_natCast, Int.tdiv_eq_ediv hp (by positivity)]

/-- The epoch count agrees with its `ℕ` version in the regime
`window ≤ rows`. -/
theorem numEpochsInt_natCast (rows w st : ℕ) (hw : w ≤ rows) :
    numEpochsInt (rows : ℤ) (w : ℤ) (st : ℤ) = (numEpochsNat rows w st : ℤ) := by
  unfold numEpochsInt numEpochsNat
  rw [show (st : ℤ) + (rows : ℤ) - (w : ℤ) = ((st + rows - w : ℕ) : ℤ) by omega]
  exact_mod_cast (Int.ofNat_tdiv (st + rows - w) st).symm

/-! ## C2: the epoch-count formula -/

/-- C2 (corrected).  The computed epoch count is the truncation toward zero
of `1 + (rows - window)/step`; whenever `window ≤ rows` (and `step ≥ 1`)
this coincides with the spec's `floor(1 + (rows - window)/step)`, and the
spec's two examples hold: rows=20, window=5, step=5 gives 4, and a window
equal to the row count gives a single epoch. -/
theorem num_epochs_formula :
    (∀ rows w st : ℤ, 1 ≤ st → w ≤ rows →
      numEpochsInt rows w st = ⌊(1 : ℚ) + (((rows : ℚ) - (w : ℚ)) / (st : ℚ))⌋)
    ∧ numEpochsInt 20 5 5 = 4
    ∧ (∀ rows st : ℤ, 1 ≤ st → numEpochsInt rows rows st = 1) := by
  refine ⟨?_, by decide, ?_⟩
  · intro rows w st hst hw
    have hp : (0 : ℤ) ≤ st + rows - w := by omega
    have hq : (st : ℚ) ≠ 0 := by
      simpa using (show st ≠ 0 by omega)
    have hcast : (st : ℚ) = ((st.toNat : ℕ) : ℚ) := by
      exact_mod_cast (congrArg (fun z : ℤ => (z : ℚ))
        (Int.toNat_of_nonneg (by omega : (0 : ℤ) ≤ st))).symm
    have hrw : (1 : ℚ) + (((rows : ℚ) - (w : ℚ)) / (st : ℚ))
        = ((st + rows - w : ℤ) : ℚ) / ((st.toNat : ℕ) : ℚ) := by
      rw [← hcast]
      field_simp
      ring
    rw [hrw, Rat.floor_intCast_div_natCast]
    unfold numEpochsInt
    rw [Int.tdiv_eq_ediv hp (by omega)]
    congr 1
    omega
  · intro rows st hst
    unfold numEpochsInt
    rw [show st + rows - rows = st by ring]
    rw [Int.tdiv_eq_ediv (by omega) (by omega)]
    exact Int.ediv_self (by omega)

/-- Witness for C2 at rows=26, window=5, step=7: the code's count and the
floor formula both give 4. -/
theorem num_epochs_formula_witness :
    (1 : ℤ) ≤ 7 ∧ (5 : ℤ) ≤ 26
    ∧ numEpochsInt 26 5 7 = ⌊(1 : ℚ) + (((26 : ℚ) - (5 : ℚ)) / ((7 : ℚ)))⌋ :=
  ⟨by decide, by decide, num_epochs_formula.1 26 5 7 (by decide) (by decide)⟩

/-- C2 counterexample: at rows=5, window=20, step=7 the code computes
`int(1 + (5-20)/7) = -1` (truncation toward zero), while the claimed
universal formula `floor(1 + (rows-window)/step)` gives `-2`. -/
theorem num_epochs_floor_counterexample :
    numEpochsInt 5 20 7 = -1
    ∧ ⌊(1 : ℚ) + (((5 : ℚ) - (20 : ℚ)) / ((7 : ℚ)))⌋ = -2
    ∧ ((-1 : ℤ) ≠ -2) := by
  refine ⟨by decide, ?_, by decide⟩
  norm_num

/-! ## C3: when the segmenter raises -/

/-- C3 (amended).  The segmenter raises exactly these errors: a
division-by-zero error when `step = 0`, and the epoch-explosion
`ValueError` when the computed epoch count strictly exceeds 1000 (so a
count of exactly 1000 passes, contrary to the spec's `>= 1000`); in every
other case — including non-positive windows, negative steps and windows
larger than the row count — it returns epoch slices without raising. -/
theorem segment_raises_iff (s : TrialSeries) (w st : ℤ) :
    (createEpoch s w st = Except.error Err.zeroDivision ↔ st = 0)
    ∧ (createEpoch s w st = Except.error Err.valueError ↔
        (st ≠ 0 ∧ 1000 < numEpochsInt (numRows s) w st))
    ∧ ((∃ slices, createEpoch s w st = Except.ok slices) ↔
        (st ≠ 0 ∧ numEpochsInt (numRows s) w st ≤ 1000)) := by
  by_cases hst : st = 0
  · simp [createEpoch, hst]
  · by_cases hbig : 1000 < numEpochsInt (numRows s) w st
    · simp [createEpoch, hst, hbig]
      try omega
    · simp [createEpoch, hst, hbig]
      try omega

/-- C3 counterexample: window=0 (non-positive) on a 20-row sweep with
step=5 does not raise: the segmenter happily yields five empty slices. -/
theorem segment_nonpositive_window_counterexample :
    ((0 : ℤ) ≤ 0)
    ∧ createEpoch ⟨["v"], [("sweep001", List.replicate 20 [(0 : ℚ)])]⟩ 0 5
      = Except.ok (List.replicate 5 []) := by
  constructor
  · decide
  · decide

/-! ## C6: the periodogram frequency axis -/

/-- Helper: the length of `linspace`. -/
theorem linspace_length (lo hi : ℚ) (n : ℕ) : (linspace lo hi n).length = n := by
  unfold linspace
  split <;> simp only [List.length_map, List.length_range]

/-- Helper: `int()` of a natural-number rational is itself. -/
theorem truncQ_natCast (r : ℕ) : truncQ (r : ℚ) = (r : ℤ) := by
  unfold truncQ
  rw [Rat.num_natCast, Rat.den_natCast]
  simp

/-- Helper: last element of a map over an initial segment. -/
theorem getLast_map_range {β : Type} (m : ℕ) (f : ℕ → β) :
    ((List.range (m + 1)).map f).getLast? = some (f m) := by
  rw [List.range_succ, List.map_append]
  exact List.getLast?_concat _

/-- Helper: first element of a map over an initial segment. -/
theorem head_map_range {β : Type} (m : ℕ) (f : ℕ → β) :
    ((List.range (m + 1)).map f).head? = some (f 0) := by
  rw [List.range_succ_eq_map]
  simp only [List.map_cons, List.head?_cons]

/-- C6 (corrected).  For an epoch of `n ≥ 1` samples the periodogram
statistic returns index axis and value vector of length `n/2 + 1`; the
frequency axis starts at `0` and is strictly increasing, but its maximum is
`fs·(n/2)/n`, which equals the claimed `fs/2` exactly when the window
length is even. -/
theorem pgram_freqs_correct (fs : ℤ) (n : ℕ) (hfs : 1 ≤ fs) (hn : 1 ≤ n) :
    (pgramFreqs fs n).length = n / 2 + 1
    ∧ (pgramFreqs fs n).head? = some 0
    ∧ List.Pairwise (fun a b : ℚ => a < b) (pgramFreqs fs n)
    ∧ (pgramFreqs fs n).getLast? = some ((fs : ℚ) * ((n / 2 : ℕ) : ℚ) / (n : ℚ))
    ∧ (n % 2 = 0 → (fs : ℚ) * ((n / 2 : ℕ) : ℚ) / (n : ℚ) = (fs : ℚ) / 2)
    ∧ (∀ (g : List ℚ → ℕ → ℚ) (xs : List ℚ), xs.length = n →
        ∃ out, pgramStat g fs xs = Except.ok out
          ∧ out.length = n / 2 + 1 ∧ out.map Prod.fst = pgramFreqs fs n) := by
  have hfsq : (0 : ℚ) < (fs : ℚ) := by exact_mod_cast hfs
  have hnq : (0 : ℚ) < (n : ℚ) := by exact_mod_cast hn
  have hlen : (pgramFreqs fs n).length = n / 2 + 1 := by
    unfold pgramFreqs
    rw [List.length_map, List.length_range]
  refine ⟨hlen, ?_, ?_, ?_, ?_, ?_⟩
  · unfold pgramFreqs
    rw [head_map_range]
    norm_num
  · unfold pgramFreqs
    rw [List.pairwise_map]
    refine (List.pairwise_lt_range (n / 2 + 1)).imp ?_
    intro a b hab
    have hq : ((a : ℚ)) < (b : ℚ) := by exact_mod_cast hab
    have h1 : (a : ℚ) * (fs : ℚ) < (b : ℚ) * (fs : ℚ) :=
      mul_lt_mul_of_pos_right hq hfsq
    exact (div_lt_div_iff_of_pos_right hnq).mpr h1
  · unfold pgramFreqs
    rw [getLast_map_range]
    rw [mul_comm ((n / 2 : ℕ) : ℚ) ((fs : ℚ))]
  · intro hev
    obtain ⟨k, hk⟩ : ∃ k, n = 2 * k := ⟨n / 2, by omega⟩
    have hk1 : 1 ≤ k := by omega
    subst hk
    rw [show (2 * k) / 2 = k by omega]
    have hkq : ((k : ℚ)) ≠ 0 := by
      have h0 : (0 : ℚ) < (k : ℚ) := by exact_mod_cast hk1
      exact ne_of_gt h0
    push_cast
    field_simp
    ring
  · intro g xs hxs
    refine ⟨(pgramFreqs fs xs.length).zip
      ((List.range (xs.length / 2 + 1)).map (g xs)), ?_, ?_, ?_⟩
    · unfold pgramStat
      rw [if_neg (by omega)]
    · rw [List.length_zip, hxs, hlen, List.length_map, List.length_range]
      exact min_self _
    · rw [List.map_fst_zip, hxs]
      rw [hxs, hlen, List.length_map, List.length_range]

/-- Witness for C6 at fs=10000, window n=4. -/
theorem pgram_freqs_correct_witness :
    (1 : ℤ) ≤ 10000 ∧ (1 : ℕ) ≤ 4 ∧ (pgramFreqs 10000 4).length = 4 / 2 + 1 :=
  ⟨by decide, by decide, (pgram_freqs_correct 10000 4 (by decide) (by decide)).1⟩

/-- C6 counterexample: with the default fs=10000 and the odd window 5 the
frequency axis is `[0, 2000, 4000]`: it ends at 4000, not at the claimed
Nyquist frequency `fs/2 = 5000`. -/
theorem pgram_nyquist_counterexample :
    (pgramFreqs 10000 5).getLast? = some 4000
    ∧ ((4000 : ℚ) ≠ (10000 : ℚ) / 2) := by
  have h5 : pgramFreqs 10000 5 = [0, 2000, 4000] := by
    unfold pgramFreqs
    rw [show (5 / 2 + 1 : ℕ) = 3 by norm_num]
    rw [show List.range 3 = [0, 1, 2] by decide]
    norm_num
  constructor
  · rw [h5]
    rfl
  · norm_num

/-! ## C7: the KDE output length and default resolution -/

/-- C7 (confirmed).  Whenever the KDE statistic succeeds on an epoch its
output vector has exactly `resolution` entries (for an integral resolution
parameter), and when no resolution is supplied the default used is
`5 * |range_max - range_min|`. -/
theorem kde_length_correct :
    (∀ (g : List ℚ → ℚ → ℚ) (lo hi : ℚ) (r : ℕ) (xs : List ℚ)
        (out : List (ℚ × ℚ)),
      kdeStat g lo hi (r : ℚ) xs = Except.ok out → out.length = r)
    ∧ (∀ lo hi : ℚ, resolveRes lo hi none = 5 * |hi - lo|) := by
  constructor
  · intro g lo hi r xs out h
    cases xs with
    | nil => simp [kdeStat] at h
    | cons x rest =>
      simp only [kdeStat] at h
      split at h
      · exact Except.noConfusion h
      · have hout := (Except.ok.injEq _ _).mp h
        rw [← hout, List.length_map, linspace_length, truncQ_natCast]
        simp
  · intro lo hi
    unfold resolveRes
    rw [Option.getD_none, abs_sub_comm]
    ring

/-- Witness for C7: a two-sample epoch over range [0,2] with resolution 3
yields a three-point output. -/
theorem kde_length_correct_witness :
    kdeStat (fun _ _ => (0 : ℚ)) 0 2 ((3 : ℕ) : ℚ) [0, 1]
        = Except.ok [((0 : ℚ), (0 : ℚ)), (1, 0), (2, 0)]
    ∧ ([((0 : ℚ), (0 : ℚ)), (1, 0), (2, 0)] : List (ℚ × ℚ)).length = 3 := by
  have hlin : linspace 0 2 3 = [0, 1, 2] := by
    unfold linspace
    rw [if_neg (by norm_num)]
    rw [show List.range 3 = [0, 1, 2] by decide]
    norm_num
  have heq : kdeStat (fun _ _ => (0 : ℚ)) 0 2 ((3 : ℕ) : ℚ) [0, 1]
      = Except.ok [((0 : ℚ), (0 : ℚ)), (1, 0), (2, 0)] := by
    simp only [kdeStat]
    rw [if_neg (by norm_num), truncQ_natCast, Int.toNat_natCast, hlin]
    rfl
  exact ⟨heq, kde_length_correct.1 (fun _ _ => (0 : ℚ)) 0 2 3 [0, 1] _ heq⟩

/-! ## C1: the segmentation slices -/

/-- Helper: in the regime `window ≤ rows`, `step ≥ 1` there is at least one
epoch. -/
theorem numEpochsNat_pos (rows w st : ℕ) (hst : 1 ≤ st) (hw : w ≤ rows) :
    1 ≤ numEpochsNat rows w st := by
  unfold numEpochsNat
  rw [Nat.one_le_div_iff (by omega)]
  omega

/-- Helper: every epoch ends within the rows. -/
theorem epoch_end_le (rows w st : ℕ) (hst : 1 ≤ st) (hw : w ≤ rows) (i : ℕ)
    (hi : i < numEpochsNat rows w st) : st * i + w ≤ rows := by
  unfold numEpochsNat at hi
  have h2 : st * (i + 1) ≤ st * ((st + rows - w) / st) :=
    Nat.mul_le_mul_left st hi
  have h3 : st * ((st + rows - w) / st) ≤ st + rows - w := by
    rw [mul_comm]
    exact Nat.div_mul_le_self _ _
  rw [Nat.mul_succ] at h2
  omega

/-- Helper: length of a trial-major block of `n` epochs per trial. -/
theorem length_flatMap_range {α β : Type} (l : List α) (n : ℕ) (f : α → ℕ → β) :
    (l.flatMap (fun a => (List.range n).map (f a))).length = l.length * n := by
  induction l with
  | nil => simp
  | cons a l ih =>
    rw [List.flatMap_cons, List.length_append, List.length_map,
      List.length_range, ih, List.length_cons]
    ring

/-- Helper: the element at flat position `t*n + i` of a trial-major block
is epoch `i` of trial `t`. -/
theorem getD_flatMap_range {α β : Type} (l : List α) (n : ℕ) (f : α → ℕ → β)
    (t i : ℕ) (ht : t < l.length) (hi : i < n) (d : β) (da : α) :
    (l.flatMap (fun a => (List.range n).map (f a))).getD (t * n + i) d
      = f (l.getD t da) i := by
  induction l generalizing t with
  | nil => exact absurd ht (Nat.not_lt_zero t)
  | cons a l ih =>
    rw [List.flatMap_cons]
    cases t with
    | zero =>
      rw [Nat.zero_mul, Nat.zero_add]
      rw [List.getD_eq_getElem?_getD]
      rw [List.getElem?_append_left (by
        rw [List.length_map, List.length_range]
        exact hi)]
      rw [List.getElem?_map, List.getElem?_range hi]
      rfl
    | succ u =>
      rw [List.getD_eq_getElem?_getD]
      rw [List.getElem?_append_right (by
        rw [List.length_map, List.length_range, Nat.succ_mul]
        omega)]
      rw [List.length_map, List.length_range]
      rw [show (u + 1) * n + i - n = u * n + i by rw [Nat.succ_mul]; omega]
      rw [← List.getD_eq_getElem?_getD]
      rw [List.getD_cons_succ]
      rw [List.length_cons] at ht
      exact ih u (by omega)

/-- Helper: a Python slice with natural bounds. -/
theorem pySliceInt_nat {α : Type} (xs : List α) (a b : ℕ) :
    pySliceInt xs (a : ℤ) (b : ℤ)
      = (xs.take (min b xs.length)).drop (min a xs.length) := by
  simp only [pySliceInt]
  rw [if_neg (by omega : ¬((a : ℤ) < 0)), if_neg (by omega : ¬((b : ℤ) < 0))]
  rw [← Nat.cast_min, ← Nat.cast_min, Int.toNat_natCast, Int.toNat_natCast]

/-- Helper: a fully in-range Python slice keeps exactly the samples
`[a, b)`. -/
theorem pySlice_full {α : Type} (xs : List α) (a b : ℕ) (hab : a ≤ b)
    (hb : b ≤ xs.length) :
    (pySliceInt xs (a : ℤ) (b : ℤ)).length = b - a
    ∧ ∀ j d, j < b - a →
        (pySliceInt xs (a : ℤ) (b : ℤ)).getD j d = xs.getD (a + j) d := by
  rw [pySliceInt_nat, min_eq_left hb, min_eq_left (le_trans hab hb)]
  constructor
  · rw [List.length_drop, List.length_take, min_eq_left hb]
  · intro j d hj
    rw [List.getD_eq_getElem?_getD, List.getElem?_drop]
    rw [List.getElem?_take_of_lt (by omega)]
    rw [← List.getD_eq_getElem?_getD]

/-- Helper: the segmenter's success value, written out. -/
theorem createEpoch_ok (s : TrialSeries) (w st : ℤ) (hst : st ≠ 0)
    (hcap : numEpochsInt (numRows s) w st ≤ 1000) :
    createEpoch s w st = Except.ok (s.trials.flatMap (fun tr =>
      (List.range (numEpochsInt (numRows s) w st).toNat).map
        (fun i : ℕ => pySliceInt tr.2 (st * (i : ℤ)) (w + st * (i : ℤ))))) := by
  unfold createEpoch
  rw [if_neg hst]
  show (if 1000 < numEpochsInt (numRows s) w st then _ else _) = _
  rw [if_neg (by omega)]

/-- C1 (corrected).  For a series of equal-length trials and positive
`window ≤ rows`, positive `step`, and an epoch count under the cap, the
segmenter succeeds and yields exactly `num_trials * num_epochs` slices, in
trial-major, epoch-ascending order: slice `t*num_epochs + i` has length
exactly `window` and holds samples `[i*step, i*step + window)` of trial
`t`.  (The added hypothesis `window ≤ rows` is forced by the
counterexample: for `window > rows` the code computes a negative
`num_epochs` and yields no slices at all.) -/
theorem segment_slices_correct (s : TrialSeries) (w st : ℕ)
    (heq : ∀ tr ∈ s.trials, tr.2.length = numRows s)
    (hw1 : 1 ≤ w) (hst : 1 ≤ st) (hwr : w ≤ numRows s)
    (hcap : numEpochsInt (numRows s) (w : ℤ) (st : ℤ) < 1000) :
    ∃ slices, createEpoch s (w : ℤ) (st : ℤ) = Except.ok slices
    ∧ slices.length = s.trials.length * numEpochsNat (numRows s) w st
    ∧ ∀ t i, t < s.trials.length → i < numEpochsNat (numRows s) w st →
        (slices.getD (t * numEpochsNat (numRows s) w st + i) []).length = w
        ∧ ∀ j d, j < w →
            ((slices.getD (t * numEpochsNat (numRows s) w st + i) []).getD j d
              = ((s.trials.getD t ("", [])).2).getD (i * st + j) d) := by
  have hbridge : numEpochsInt ((numRows s : ℕ) : ℤ) (w : ℤ) (st : ℤ)
      = ((numEpochsNat (numRows s) w st : ℕ) : ℤ) :=
    numEpochsInt_natCast (numRows s) w st hwr
  have hok := createEpoch_ok s (w : ℤ) (st : ℤ)
    (by exact_mod_cast (by omega : st ≠ 0)) (by omega)
  rw [hbridge, Int.toNat_natCast] at hok
  refine ⟨_, hok, ?_, ?_⟩
  · exact length_flatMap_range _ _ _
  · intro t i ht hi
    have hblock := getD_flatMap_range s.trials (numEpochsNat (numRows s) w st)
      (fun tr i => pySliceInt tr.2 ((st : ℤ) * (i : ℤ)) ((w : ℤ) + (st : ℤ) * (i : ℤ)))
      t i ht hi [] ("", [])
    have hcast2 : ((w : ℤ) + (st : ℤ) * (i : ℤ)) = ((w + st * i : ℕ) : ℤ) := by
      push_cast
      ring
    have hcast1 : ((st : ℤ) * (i : ℤ)) = ((st * i : ℕ) : ℤ) := by
      push_cast
      ring
    rw [hcast2, hcast1] at hblock
    have hmem : (s.trials.getD t ("", [])) ∈ s.trials := by
      rw [List.getD_eq_getElem?_getD, List.getElem?_eq_getElem ht]
      exact List.getElem_mem ht
    have hrows : (s.trials.getD t ("", [])).2.length = numRows s := heq _ hmem
    have hend : st * i + w ≤ numRows s :=
      epoch_end_le (numRows s) w st hst hwr i hi
    have hslice := pySlice_full ((s.trials.getD t ("", [])).2) (st * i)
      (w + st * i) (by omega) (by omega)
    constructor
    · rw [hblock, hslice.1]
      omega
    · intro j d hj
      rw [hblock, hslice.2 j d (by omega)]
      rw [show st * i + j = i * st + j by ring]

/-- Witness for C1 on `demoSeries`: two trials of six rows, window 3,
step 2: four slices in total. -/
theorem segment_slices_correct_witness :
    ((∀ tr ∈ demoSeries.trials, tr.2.length = numRows demoSeries)
      ∧ (1 : ℕ) ≤ 3 ∧ (1 : ℕ) ≤ 2 ∧ 3 ≤ numRows demoSeries
      ∧ numEpochsInt (numRows demoSeries) ((3 : ℕ) : ℤ) ((2 : ℕ) : ℤ) < 1000)
    ∧ (∃ slices, createEpoch demoSeries ((3 : ℕ) : ℤ) ((2 : ℕ) : ℤ)
          = Except.ok slices
        ∧ slices.length
            = demoSeries.trials.length * numEpochsNat (numRows demoSeries) 3 2) := by
  have hmain := segment_slices_correct demoSeries 3 2
    (by decide) (by decide) (by decide) (by decide) (by decide)
  refine ⟨⟨by decide, by decide, by decide, by decide, by decide⟩, ?_⟩
  obtain ⟨slices, h1, h2, _⟩ := hmain
  exact ⟨slices, h1, h2⟩

/-- C1 counterexample: one trial of 5 rows, window 20, step 5: the claimed
slice count `num_trials * num_epochs` is `1 * (-2)`, but the segmenter
succeeds with no slice at all. -/
theorem segment_count_counterexample :
    createEpoch shortSeries 20 5 = Except.ok []
    ∧ (1 : ℤ) * numEpochsInt (numRows shortSeries) 20 5 = -2
    ∧ (((List.length ([] : List (List (List ℚ)))) : ℤ) ≠ -2) := by
  refine ⟨by decide, by decide, by decide⟩

/-! ## C8: missing channels abort the pipeline -/

/-- Helper: `Except.bind` on a success. -/
theorem bind_ok_eq {β γ : Type} (a : β) (f : β → Except Err γ) :
    Except.bind (Except.ok a) f = f a := rfl

/-- Helper: `Except.bind` on a raised exception. -/
theorem bind_err_eq {β γ : Type} (e : Err) (f : β → Except Err γ) :
    Except.bind (Except.error e) f = Except.error e := rfl

/-- Helper: channel selection on an absent column name. -/
theorem getChannel_missing (cols : List String) (rows : List (List ℚ))
    (ch : String) (h : ch ∉ cols) :
    getChannel cols rows ch = Except.error Err.missingChannel := by
  unfold getChannel
  rw [List.findIdx?_eq_none_iff.mpr (by
    intro x hx
    simp only [decide_eq_false_iff_not]
    intro he
    exact h (he ▸ hx))]

/-- Helper: a loop whose every iteration raises `e` raises `e`. -/
theorem mapExcept_const_error {α β : Type} (l : List α) (e : Err)
    (f : α → Except Err β) (hf : ∀ x ∈ l, f x = Except.error e)
    (hne : l ≠ []) : mapExcept f l = Except.error e := by
  cases l with
  | nil => exact absurd rfl hne
  | cons x xs =>
    unfold mapExcept
    rw [hf x (List.mem_cons_self x xs)]

/-- C8 (confirmed).  Requesting a channel absent from the series makes each
entry point raise the missing-channel error on the first epoch, before any
per-epoch statistic is computed: the outcome is the same for an arbitrary
statistic function, so no statistic computation influences the run. -/
theorem missing_channel_error (s : TrialSeries) (w st : ℤ) (ch : String)
    (hch : ch ∉ s.cols) (hs : s.trials ≠ []) (hst : st ≠ 0)
    (h1 : 1 ≤ numEpochsInt (numRows s) w st)
    (hcap : numEpochsInt (numRows s) w st ≤ 1000) :
    (∀ (stat : List ℚ → Except Err (List (ℚ × ℚ))) (idxLen : ℕ),
        epochStatRun stat idxLen s w st ch = Except.error Err.missingChannel)
    ∧ (∀ (lo hi : ℚ) (n : ℕ),
        epochHist s w st ch lo hi n = Except.error Err.missingChannel)
    ∧ (∀ (g : List ℚ → ℚ → ℚ) (lo hi : ℚ) (res : Option ℚ),
        epochKde g s w st ch lo hi res = Except.error Err.missingChannel)
    ∧ (∀ (g : List ℚ → ℕ → ℚ) (fs : ℤ),
        epochPgram g s w st ch fs = Except.error Err.missingChannel) := by
  have hcore : ∀ (stat : List ℚ → Except Err (List (ℚ × ℚ))) (idxLen : ℕ),
      epochStatRun stat idxLen s w st ch = Except.error Err.missingChannel := by
    intro stat idxLen
    have hok := createEpoch_ok s w st hst hcap
    unfold epochStatRun
    rw [hok, bind_ok_eq]
    rw [mapExcept_const_error _ Err.missingChannel _
      (fun sl _ => by rw [getChannel_missing s.cols sl ch hch, bind_err_eq])
      (by
        have hlen := length_flatMap_range s.trials
          (numEpochsInt (numRows s) w st).toNat
          (fun tr i => pySliceInt tr.2 (st * (i : ℤ)) (w + st * (i : ℤ)))
        have ht : 0 < s.trials.length := List.length_pos.mpr hs
        have hn : 0 < (numEpochsInt (numRows s) w st).toNat := by omega
        rw [← List.length_pos, hlen]
        exact Nat.mul_pos ht hn)]
    rfl
  refine ⟨hcore, ?_, ?_, ?_⟩
  · intro lo hi n
    unfold epochHist
    exact hcore _ _
  · intro g lo hi res
    unfold epochKde
    exact hcore _ _
  · intro g fs
    unfold epochPgram
    exact hcore _ _

/-- Witness for C8: asking `epoch_hist` of `demoSeries` for the absent
channel name w yields the missing-channel error. -/
theorem missing_channel_error_witness :
    ("w" ∉ demoSeries.cols) ∧ demoSeries.trials ≠ [] ∧ ((2 : ℤ) ≠ 0)
    ∧ 1 ≤ numEpochsInt (numRows demoSeries) 3 2
    ∧ numEpochsInt (numRows demoSeries) 3 2 ≤ 1000
    ∧ epochHist demoSeries 3 2 ("w") 0 4 2
        = Except.error Err.missingChannel :=
  ⟨by decide, by decide, by decide, by decide, by decide,
    (missing_channel_error demoSeries 3 2 ("w") (by decide) (by decide)
      (by decide) (by decide) (by decide)).2.1 0 4 2⟩

/-! ## C9: the pipeline reads only its declared inputs -/

/-- Helper: the segmenter's division-by-zero case. -/
theorem createEpoch_zeroDivision (s : TrialSeries) (w : ℤ) :
    createEpoch s w 0 = Except.error Err.zeroDivision := by
  unfold createEpoch
  rw [if_pos rfl]

/-- Helper: the segmenter's epoch-explosion case. -/
theorem createEpoch_valueError (s : TrialSeries) (w st : ℤ) (hst : st ≠ 0)
    (h : 1000 < numEpochsInt (numRows s) w st) :
    createEpoch s w st = Except.error Err.valueError := by
  unfold createEpoch
  rw [if_neg hst]
  show (if 1000 < numEpochsInt (numRows s) w st then _ else _) = _
  rw [if_pos h]

/-- Helper: the per-epoch loop is determined by the per-epoch results. -/
theorem mapExcept_eq_of_map_eq {α β : Type} (f1 f2 : α → Except Err β) :
    ∀ (l1 l2 : List α), l1.map f1 = l2.map f2 →
      mapExcept f1 l1 = mapExcept f2 l2
  | [], [], _ => rfl
  | [], _ :: _, h => by simp at h
  | _ :: _, [], h => by simp at h
  | a :: l1, b :: l2, h => by
    rw [List.map_cons, List.map_cons] at h
    have h1 : f1 a = f2 b := ((List.cons.injEq _ _ _ _).mp h).1
    have h2 : l1.map f1 = l2.map f2 := ((List.cons.injEq _ _ _ _).mp h).2
    unfold mapExcept
    rw [h1, mapExcept_eq_of_map_eq f1 f2 l1 l2 h2]

/-- Helper: a constant block repeated once per trial depends only on the
number of trials. -/
theorem flatMap_const_of_length_eq {α β : Type} (B : List β) :
    ∀ (l1 l2 : List α), l1.length = l2.length →
      l1.flatMap (fun _ => B) = l2.flatMap (fun _ => B)
  | [], [], _ => rfl
  | [], _ :: _, h => by simp at h
  | _ :: _, [], h => by simp at h
  | _ :: l1, _ :: l2, h => by
    rw [List.flatMap_cons, List.flatMap_cons,
      flatMap_const_of_length_eq B l1 l2 (by
        rw [List.length_cons, List.length_cons] at h
        omega)]

/-- Helper: channel selection when the column lookup misses. -/
theorem getChannel_findIdx_none (cols : List String) (ch : String)
    (h : cols.findIdx? (fun c => c = ch) = none) (rows : List (List ℚ)) :
    getChannel cols rows ch = Except.error Err.missingChannel := by
  unfold getChannel
  rw [h]

/-- Helper: channel selection when the column lookup hits column `i`. -/
theorem getChannel_findIdx_some (cols : List String) (ch : String) (i : ℕ)
    (h : cols.findIdx? (fun c => c = ch) = some i) (rows : List (List ℚ)) :
    getChannel cols rows ch = Except.ok (rows.map (fun r => r.getD i 0)) := by
  unfold getChannel
  rw [h]

/-- Helper: slicing commutes with a per-row map. -/
theorem map_pySliceInt {α β : Type} (f : α → β) (xs : List α) (a b : ℤ) :
    (pySliceInt xs a b).map f = pySliceInt (xs.map f) a b := by
  simp only [pySliceInt, List.length_map]
  rw [List.map_drop, List.map_take]

/-- Helper: the whole statistic run reads nothing of the series beyond its
trial names, its row count and the selected channel's values. -/
theorem epochStatRun_congr (stat : List ℚ → Except Err (List (ℚ × ℚ)))
    (idxLen : ℕ) (s1 s2 : TrialSeries) (ch : String) (w st : ℤ)
    (hn : trialNames s1 = trialNames s2) (hr : numRows s1 = numRows s2)
    (hc : chanCol s1 ch = chanCol s2 ch) :
    epochStatRun stat idxLen s1 w st ch = epochStatRun stat idxLen s2 w st ch := by
  have hlen : s1.trials.length = s2.trials.length := by
    have h := congrArg List.length hn
    simpa [trialNames] using h
  by_cases hst : st = 0
  · subst hst
    unfold epochStatRun
    rw [createEpoch_zeroDivision s1 w, createEpoch_zeroDivision s2 w,
      bind_err_eq, bind_err_eq]
  · by_cases hbig : 1000 < numEpochsInt (numRows s1) w st
    · have e1 := createEpoch_valueError s1 w st hst hbig
      have e2 := createEpoch_valueError s2 w st hst (by rw [← hr]; exact hbig)
      unfold epochStatRun
      rw [e1, e2, bind_err_eq, bind_err_eq]
    · push_neg at hbig
      have hok1 := createEpoch_ok s1 w st hst hbig
      have hok2 := createEpoch_ok s2 w st hst (by rw [← hr]; exact hbig)
      rw [← hr] at hok2
      unfold epochStatRun
      simp only [hok1, hok2, bind_ok_eq]
      have hmap : (s1.trials.flatMap (fun tr =>
            (List.range (numEpochsInt (numRows s1) w st).toNat).map
              (fun i : ℕ => pySliceInt tr.2 (st * (i : ℤ)) (w + st * (i : ℤ))))).map
            (fun sl => Except.bind (getChannel s1.cols sl ch) stat)
          = (s2.trials.flatMap (fun tr =>
            (List.range (numEpochsInt (numRows s1) w st).toNat).map
              (fun i : ℕ => pySliceInt tr.2 (st * (i : ℤ)) (w + st * (i : ℤ))))).map
            (fun sl => Except.bind (getChannel s2.cols sl ch) stat) := by
        rw [List.map_flatMap, List.map_flatMap]
        simp only [List.map_map, Function.comp_def]
        unfold chanCol at hc
        cases hfi1 : s1.cols.findIdx? (fun c => c = ch) with
        | none =>
          cases hfi2 : s2.cols.findIdx? (fun c => c = ch) with
          | some i2 =>
            rw [hfi1, hfi2] at hc
            exact absurd hc (by simp)
          | none =>
            simp only [getChannel_findIdx_none s1.cols ch hfi1,
              getChannel_findIdx_none s2.cols ch hfi2, bind_err_eq]
            exact flatMap_const_of_length_eq _ s1.trials s2.trials hlen
        | some i1 =>
          cases hfi2 : s2.cols.findIdx? (fun c => c = ch) with
          | none =>
            rw [hfi1, hfi2] at hc
            exact absurd hc (by simp)
          | some i2 =>
            rw [hfi1, hfi2] at hc
            have hdata : s1.trials.map (fun t => t.2.map (fun r => r.getD i1 0))
                = s2.trials.map (fun t => t.2.map (fun r => r.getD i2 0)) := by
              simpa using hc
            simp only [getChannel_findIdx_some s1.cols ch i1 hfi1,
              getChannel_findIdx_some s2.cols ch i2 hfi2, bind_ok_eq,
              map_pySliceInt]
            have h1 := (List.flatMap_map
              (fun t : String × List (List ℚ) => t.2.map (fun r => r.getD i1 0))
              (fun col : List ℚ =>
                (List.range (numEpochsInt (numRows s1) w st).toNat).map
                  (fun i : ℕ => stat (pySliceInt col (st * (i : ℤ))
                    (w + st * (i : ℤ)))))
              s1.trials).symm
            have h2 := List.flatMap_map
              (fun t : String × List (List ℚ) => t.2.map (fun r => r.getD i2 0))
              (fun col : List ℚ =>
                (List.range (numEpochsInt (numRows s1) w st).toNat).map
                  (fun i : ℕ => stat (pySliceInt col (st * (i : ℤ))
                    (w + st * (i : ℤ)))))
              s2.trials
            rw [h1, hdata, h2]
      rw [mapExcept_eq_of_map_eq _ _ _ _ hmap]
      congr 1
      funext results
      simp only [hn, hr]

/-- C9 (confirmed).  The pipeline is a pure function of its declared
inputs: any two series agreeing on trial names, per-trial row count and
the selected channel's values give identical output tables for each entry
point (in particular two invocations on identical inputs are identical —
there is no hidden random or ambient state in the embedding, which is
faithful: the source calls no random source). -/
theorem pipeline_deterministic (s1 s2 : TrialSeries) (ch : String) (w st : ℤ)
    (hn : trialNames s1 = trialNames s2) (hr : numRows s1 = numRows s2)
    (hc : chanCol s1 ch = chanCol s2 ch) :
    (∀ (lo hi : ℚ) (n : ℕ),
      epochHist s1 w st ch lo hi n = epochHist s2 w st ch lo hi n)
    ∧ (∀ (g : List ℚ → ℚ → ℚ) (lo hi : ℚ) (res : Option ℚ),
      epochKde g s1 w st ch lo hi res = epochKde g s2 w st ch lo hi res)
    ∧ (∀ (g : List ℚ → ℕ → ℚ) (fs : ℤ),
      epochPgram g s1 w st ch fs = epochPgram g s2 w st ch fs) := by
  refine ⟨?_, ?_, ?_⟩
  · intro lo hi n
    unfold epochHist
    exact epochStatRun_congr _ _ s1 s2 ch w st hn hr hc
  · intro g lo hi res
    unfold epochKde
    exact epochStatRun_congr _ _ s1 s2 ch w st hn hr hc
  · intro g fs
    unfold epochPgram
    exact epochStatRun_congr _ _ s1 s2 ch w st hn hr hc

/-- Witness for C9: adding a constant extra channel to `demoSeries` leaves
every histogram table on channel v unchanged. -/
theorem pipeline_deterministic_witness :
    trialNames demoSeries = trialNames demoSeriesB
    ∧ numRows demoSeries = numRows demoSeriesB
    ∧ chanCol demoSeries ("v") = chanCol demoSeriesB ("v")
    ∧ epochHist demoSeries 3 2 ("v") 0 4 2
        = epochHist demoSeriesB 3 2 ("v") 0 4 2 :=
  ⟨by decide, by decide, by rfl,
    (pipeline_deterministic demoSeries demoSeriesB ("v") 3 2
      (by decide) (by decide) (by rfl)).1 0 4 2⟩

/-! ## C4: the assembled-table row count -/

/-- C4 (code bug).  On the 20-row single-sweep series with window=5 (odd)
and step=5, `epoch_pgram` does not return a table at all: its index axis
`np.arange((window/2)+1)` has `ceil(window/2 + 1) = 4` entries per epoch
under Python 3's true division, while `periodogram` returns
`floor(window/2) + 1 = 3` values per epoch, so `set_index` raises a
length-mismatch `ValueError` (16-row index vs 12-row data) instead of
producing the claimed `1 * 4 * 3 = 12`-row table. -/
theorem pgram_odd_window_crash :
    epochPgram (fun _ _ => 0) demoSeries20 5 5 ("v") 10000
      = Except.error Err.lengthMismatch := by
  have hidx : pgramIdxLen 5 = 4 := by
    unfold pgramIdxLen arangeLen
    norm_num
    rw [show ⌈(7 : ℚ) / 2⌉ = (4 : ℤ) by
      rw [Int.ceil_eq_iff]
      constructor <;> norm_num]
    rfl
  unfold epochPgram
  rw [hidx]
  decide

/-! ## C10: data-independence of the index axis -/

/-- C10 (confirmed).  For a fixed configuration the index axis is the same
for every epoch: the histogram's bin column is the truncated uniform edge
grid determined by `hist_min`, `hist_max` and `num_bins` alone, and the
KDE's x column is the `linspace` grid determined by `range_min`,
`range_max` and the resolution alone — neither depends on the epoch's data
values. -/
theorem index_axis_constant :
    (∀ (lo hi : ℚ) (n : ℕ) (xs ys : List ℚ),
      (histStat lo hi n xs).map Prod.fst = (binsFull lo hi n).dropLast
      ∧ (histStat lo hi n xs).map Prod.fst = (histStat lo hi n ys).map Prod.fst)
    ∧ (∀ (g : List ℚ → ℚ → ℚ) (lo hi res : ℚ) (xs ys : List ℚ)
        (out1 out2 : List (ℚ × ℚ)),
      kdeStat g lo hi res xs = Except.ok out1 →
      kdeStat g lo hi res ys = Except.ok out2 →
      out1.map Prod.fst = linspace lo hi (truncQ res).toNat
      ∧ out1.map Prod.fst = out2.map Prod.fst) := by
  have hhist : ∀ (lo hi : ℚ) (n : ℕ) (xs : List ℚ),
      (histStat lo hi n xs).map Prod.fst = (binsFull lo hi n).dropLast := by
    intro lo hi n xs
    unfold histStat
    refine List.map_fst_zip _ _ ?_
    simp [binsFull]
  have hkde : ∀ (g : List ℚ → ℚ → ℚ) (lo hi res : ℚ) (xs : List ℚ)
      (out : List (ℚ × ℚ)), kdeStat g lo hi res xs = Except.ok out →
      out.map Prod.fst = linspace lo hi (truncQ res).toNat := by
    intro g lo hi res xs out h
    cases xs with
    | nil => simp [kdeStat] at h
    | cons x rest =>
      simp only [kdeStat] at h
      split at h
      · exact Except.noConfusion h
      · have hout := (Except.ok.injEq _ _).mp h
        rw [← hout, List.map_map]
        rw [show (Prod.fst ∘ fun t : ℚ => (t, g (x :: rest) t)) = id from rfl]
        exact List.map_id _
  constructor
  · intro lo hi n xs ys
    exact ⟨hhist lo hi n xs, by rw [hhist lo hi n xs, hhist lo hi n ys]⟩
  · intro g lo hi res xs ys out1 out2 h1 h2
    exact ⟨hkde g lo hi res xs out1 h1,
      by rw [hkde g lo hi res xs out1 h1, hkde g lo hi res ys out2 h2]⟩

/-- Witness for C10: two different two-sample epochs share the same
histogram bin column. -/
theorem index_axis_constant_witness :
    (histStat 0 4 2 [0, 1]).map Prod.fst = (binsFull 0 4 2).dropLast
    ∧ (histStat 0 4 2 [0, 1]).map Prod.fst
        = (histStat 0 4 2 [2, 3]).map Prod.fst :=
  index_axis_constant.1 0 4 2 [0, 1] [2, 3]

/-! ## C5: histogram count conservation -/

/-- Helper: sum of a pointwise sum of maps. -/
theorem sum_map_add {α : Type} (l : List α) (f g : α → ℕ) :
    (l.map (fun a => f a + g a)).sum = (l.map f).sum + (l.map g).sum := by
  induction l with
  | nil => simp
  | cons a l ih =>
    simp only [List.map_cons, List.sum_cons, ih]
    omega

/-- Helper: summing the indicator of a single index over `range m`. -/
theorem sum_indicator_range (m b : ℕ) :
    ((List.range m).map (fun i => if b = i then (1 : ℕ) else 0)).sum
      = if b < m then 1 else 0 := by
  induction m with
  | zero => simp
  | succ k ih =>
    rw [List.range_succ, List.map_append, List.sum_append, ih]
    simp only [List.map_cons, List.map_nil, List.sum_cons, List.sum_nil]
    split_ifs <;> omega

/-- Helper: each sample inside `[lo, hi]` lands in exactly one of the `n`
bins, and samples outside land in none. -/
theorem sum_histBin_indicator (lo hi : ℚ) (n : ℕ) (hn : 1 ≤ n) (x : ℚ) :
    ((List.range n).map
      (fun i => if histBin lo hi n x = some i then (1 : ℕ) else 0)).sum
    = if lo ≤ x ∧ x ≤ hi then 1 else 0 := by
  by_cases hout : x < lo ∨ hi < x
  · have h1 : histBin lo hi n x = none := by
      unfold histBin
      rw [if_pos hout]
    have h2 : ¬(lo ≤ x ∧ x ≤ hi) := by
      rcases hout with h | h
      · exact fun hc => absurd hc.1 (not_le.mpr h)
      · exact fun hc => absurd hc.2 (not_le.mpr h)
    rw [if_neg h2]
    rw [show (fun i : ℕ => if histBin lo hi n x = some i then (1 : ℕ) else 0)
        = fun i : ℕ => 0 by
      funext i
      rw [h1]
      simp]
    simp
  · have hin : lo ≤ x ∧ x ≤ hi := by
      push_neg at hout
      exact hout
    have h1 : histBin lo hi n x
        = some (min (Int.toNat ⌊(x - lo) * n / (hi - lo)⌋) (n - 1)) := by
      unfold histBin
      rw [if_neg hout]
    rw [if_pos hin]
    rw [show (fun i : ℕ => if histBin lo hi n x = some i then (1 : ℕ) else 0)
        = fun i : ℕ => if min (Int.toNat ⌊(x - lo) * n / (hi - lo)⌋) (n - 1) = i
          then (1 : ℕ) else 0 by
      funext i
      rw [h1]
      simp]
    rw [sum_indicator_range]
    rw [if_pos (lt_of_le_of_lt (min_le_right _ _) (show n - 1 < n by omega))]

/-- Helper: the histogram counts over all bins add up to the number of
samples inside `[lo, hi]`. -/
theorem sum_histCount (lo hi : ℚ) (n : ℕ) (hn : 1 ≤ n) (xs : List ℚ) :
    ((List.range n).map (fun i => histCount lo hi n xs i)).sum
    = xs.countP (fun x => decide (lo ≤ x ∧ x ≤ hi)) := by
  induction xs with
  | nil => simp [histCount]
  | cons x xs ih =>
    unfold histCount at ih ⊢
    rw [List.countP_cons]
    have hstep : (fun i => (x :: xs).countP
        (fun y => decide (histBin lo hi n y = some i)))
        = fun i => xs.countP (fun y => decide (histBin lo hi n y = some i))
          + (if histBin lo hi n x = some i then 1 else 0) := by
      funext i
      rw [List.countP_cons]
      simp
    rw [hstep, sum_map_add, ih, sum_histBin_indicator lo hi n hn x]
    simp

/-- Helper: the bin column of the histogram statistic is the edge grid with
the trailing upper edge dropped. -/
theorem histStat_map_fst (lo hi : ℚ) (n : ℕ) (xs : List ℚ) :
    (histStat lo hi n xs).map Prod.fst = (binsFull lo hi n).dropLast := by
  unfold histStat
  refine List.map_fst_zip _ _ ?_
  simp [binsFull]

/-- C5 (confirmed).  The histogram statistic yields exactly `num_bins`
rows whose index axis is the edge grid with its trailing upper edge
dropped (the left edge of each bin), and the output counts sum to the
number of epoch samples inside `[hist_min, hist_max]` — samples outside
that range are counted in no bin. -/
theorem hist_counts_correct (lo hi : ℚ) (n : ℕ) (xs : List ℚ)
    (_hlo : lo < hi) (hn : 1 ≤ n) :
    (histStat lo hi n xs).length = n
    ∧ (histStat lo hi n xs).map Prod.fst = (binsFull lo hi n).dropLast
    ∧ ((histStat lo hi n xs).map Prod.snd).sum
        = ((xs.countP (fun x => decide (lo ≤ x ∧ x ≤ hi)) : ℕ) : ℚ) := by
  refine ⟨?_, histStat_map_fst lo hi n xs, ?_⟩
  · unfold histStat
    rw [List.length_zip, List.length_dropLast, List.length_map,
      List.length_range]
    simp [binsFull]
  · unfold histStat
    rw [List.map_snd_zip _ _ (by
      rw [List.length_dropLast, List.length_map, List.length_range]
      simp [binsFull])]
    rw [← sum_histCount lo hi n hn xs]
    rw [show ((List.range n).map
        (fun i => (histCount lo hi n xs i : ℚ)))
        = ((List.range n).map (fun i => histCount lo hi n xs i)).map
          (fun m : ℕ => (m : ℚ)) by rw [List.map_map]; rfl]
    exact (Nat.cast_list_sum _).symm

/-- Witness for C5: bins [0,2) and [2,4] on the epoch [0, 1, 5]: the counts
sum to 2 — the sample 5 beyond hist_max is in no bin. -/
theorem hist_counts_correct_witness :
    ((0 : ℚ) < 4) ∧ ((1 : ℕ) ≤ 2)
    ∧ ((histStat 0 4 2 [0, 1, 5]).map Prod.snd).sum
        = ((([0, 1, 5] : List ℚ).countP
            (fun x => decide ((0 : ℚ) ≤ x ∧ x ≤ 4)) : ℕ) : ℚ) :=
  ⟨by norm_num, by decide,
    (hist_counts_correct 0 4 2 [0, 1, 5] (by norm_num) (by decide)).2.2⟩
